import Mathlib

/-!
Shallow embedding of the NWS point-forecast-matrix decoder from
`bin/user/forecast.py` (functions `ParseNWSForecast`, `filldata`, `date2ts`),
together with proofs about the embedded definitions.

Python strings are modelled as `List Char`; Python dictionaries as
association lists with unique keys (all insertions go through `aset`,
which replaces the binding of an existing key in place and otherwise
appends the new key at the end, exactly like dict insertion order).
Fallible Python operations (list indexing, dict subscripting, `int()`,
`time.strptime`, unbound local reads) are modelled in the `Except PErr`
monad; `Except.ok` is a normal return and `Except.error` a raised
exception.
-/

/-- Turn a string literal into the `List Char` we use for Python strings. -/
def cl (s : String) : List Char := s.data

example : cl "HOUR" = ['H', 'O', 'U', 'R'] := rfl

/-- Errors raised by the modelled Python code. -/
inductive PErr where
  | indexError
  | keyError
  | valueError
  | unboundLocal
  deriving DecidableEq

/-- A Python value stored in one of the matrix's per-slot lists: a string
token, an integer (the hour-of-day entries), or `None`. -/
inductive PVal where
  | pstr : List Char → PVal
  | pint : Int → PVal
  | pnone : PVal
  deriving DecidableEq

open PVal

/-- Python `c.isspace()` for a single character. -/
def pyIsSpace (c : Char) : Bool :=
  c = ' ' ∨ c = '\t' ∨ c = '\n' ∨ c = '\r' ∨ c = '\x0b' ∨ c = '\x0c'

/-- Python `s.strip()`. -/
def pyStrip (s : List Char) : List Char :=
  ((s.dropWhile pyIsSpace).reverse.dropWhile pyIsSpace).reverse

/-- Python `s.startswith(p)`. -/
def pyStarts (p s : List Char) : Bool := p.isPrefixOf s

/-- Python `s.endswith(p)`. -/
def pyEnds (p s : List Char) : Bool := p.isSuffixOf s

example : pyStrip (cl "  EDT 3HRLY  ") = cl "EDT 3HRLY" := by decide
example : pyEnds (cl "3HRLY") (cl "EDT 3HRLY") = true := by decide
example : pyStarts (cl "UTC") (cl "UTC 3HRLY") = true := by decide

/-! ### Association lists standing in for Python dictionaries -/

/-- Dict lookup, `d[k]`-style access returns the first binding of `k`. -/
def alook {α β : Type} [DecidableEq α] : List (α × β) → α → Option β
  | [], _ => none
  | (k, v) :: rest, key => if k = key then some v else alook rest key

/-- Dict assignment `d[k] = v`: replace the binding of an existing key in
place, otherwise append the new key at the end (dict insertion order). -/
def aset {α β : Type} [DecidableEq α] : List (α × β) → α → β → List (α × β)
  | [], key, val => [(key, val)]
  | (k, v) :: rest, key, val =>
      if k = key then (key, val) :: rest else (k, v) :: aset rest key val

/-- Dict deletion `del d[k]`: removes every binding of `k` (a Python dict
holds at most one, and our dicts are only built through `aset`). -/
def adel {α β : Type} [DecidableEq α] : List (α × β) → α → List (α × β)
  | [], _ => []
  | (k, v) :: rest, key =>
      if k = key then adel rest key else (k, v) :: adel rest key

/-- Dict subscripting `d[k]` where a missing key raises `KeyError`. -/
def aget {α β : Type} [DecidableEq α] (d : List (α × β)) (key : α) :
    Except PErr β :=
  match alook d key with
  | some v => .ok v
  | none => .error .keyError

theorem alook_aset_self {α β : Type} [DecidableEq α]
    (d : List (α × β)) (k : α) (v : β) : alook (aset d k v) k = some v := by
  induction d with
  | nil => simp [aset, alook]
  | cons hd tl ih =>
      obtain ⟨k₀, v₀⟩ := hd
      by_cases h : k₀ = k
      · subst h
        simp [aset, alook]
      · simp [aset, alook, h, ih]

theorem alook_aset_ne {α β : Type} [DecidableEq α]
    (d : List (α × β)) (k k' : α) (v : β) (hne : k' ≠ k) :
    alook (aset d k v) k' = alook d k' := by
  have hkk : k ≠ k' := Ne.symm hne
  induction d with
  | nil => simp [aset, alook, hkk]
  | cons hd tl ih =>
      obtain ⟨k₀, v₀⟩ := hd
      by_cases h : k₀ = k
      · subst h
        simp [aset, alook, hkk]
      · by_cases h' : k₀ = k' <;> simp [aset, alook, h, h', ih, hkk, hne]

theorem alook_adel {α β : Type} [DecidableEq α]
    (d : List (α × β)) (k k' : α) :
    alook (adel d k) k' = if k' = k then none else alook d k' := by
  induction d with
  | nil => simp [adel, alook]
  | cons hd tl ih =>
      obtain ⟨k₀, v₀⟩ := hd
      by_cases h : k₀ = k
      · subst h
        by_cases h' : k' = k₀
        · subst h'
          simp [adel, ih]
        · simp [adel, alook, ih, h', Ne.symm h']
      · by_cases h' : k₀ = k'
        · subst h'
          simp [adel, alook, h]
        · simp [adel, alook, h, h', ih]

/-! ### Python primitives: indexing, `int()`, `split` -/

/-- Python list/sequence indexing `l[i]`, raising `IndexError` when out of
range. -/
def pyIdx {α : Type} (l : List α) (i : Nat) : Except PErr α :=
  match l.get? i with
  | some x => .ok x
  | none => .error .indexError

/-- Python list element assignment `l[i] = v`, raising `IndexError` when out
of range. -/
def pySet {α : Type} (l : List α) (i : Nat) (v : α) : Except PErr (List α) :=
  if i < l.length then .ok (l.set i v) else .error .indexError

/-- Value of a run of decimal digits. -/
def digitsVal : List Char → Nat
  | [] => 0
  | c :: rest => digitsVal rest + c.toNat.sub 48 * 10 ^ rest.length

/-- Python `int(s)`: optional surrounding whitespace, an optional sign, then
a non-empty run of decimal digits; anything else raises `ValueError`. -/
def pyInt (s : List Char) : Except PErr Int :=
  let t := pyStrip s
  let (neg, u) : Bool × List Char :=
    match t with
    | '-' :: rest => (true, rest)
    | '+' :: rest => (false, rest)
    | _ => (false, t)
  if u ≠ [] ∧ u.all Char.isDigit then
    .ok (if neg then -(digitsVal u : Int) else (digitsVal u : Int))
  else
    .error .valueError

example : pyInt (cl "20") = .ok 20 := rfl
example : pyInt (cl " 3") = .ok 3 := rfl
example : pyInt (cl "-4") = .ok (-4) := rfl
example : pyInt (cl "") = .error .valueError := rfl
example : pyInt (cl " ") = .error .valueError := rfl

/-- Python `s.split(' ')`: cut at every single space, keeping empty pieces;
the result is never empty. -/
def splitSp : List Char → List (List Char)
  | [] => [[]]
  | c :: rest =>
      if c = ' ' then [] :: splitSp rest
      else
        match splitSp rest with
        | [] => [[c]]
        | p :: ps => (c :: p) :: ps

example : splitSp (cl "418 PM EDT SAT MAY 11 2013") =
    [cl "418", cl "PM", cl "EDT", cl "SAT", cl "MAY", cl "11", cl "2013"] := by
  decide
example : splitSp (cl "A  B") = [cl "A", [], cl "B"] := by decide

/-! ### Deterministic model of the C time functions

`time.mktime`/`time.strptime` and `weeutil.weeutil.startOfDay` are external
collaborators (C library / a weewx utility module outside the decoder).
They are modelled deterministically in UTC; no claim depends on the
absolute value of the issuance timestamp, only on whether header parsing
succeeds and on the relative spacing of axis timestamps. -/

def isLeapY (y : Nat) : Bool := (y % 4 = 0 && y % 100 ≠ 0) || y % 400 = 0

/-- Days in the months strictly before month `mo` (1-based) of a year. -/
def daysBeforeMonth (mo : Nat) (leap : Bool) : Nat :=
  let base : Nat :=
    match mo with
    | 1 => 0 | 2 => 31 | 3 => 59 | 4 => 90 | 5 => 120 | 6 => 151
    | 7 => 181 | 8 => 212 | 9 => 243 | 10 => 273 | 11 => 304 | 12 => 334
    | _ => 0
  if leap ∧ mo ≥ 3 then base + 1 else base

/-- Days in the years strictly before year `y` (proleptic Gregorian). -/
def daysBeforeYear (y : Nat) : Nat :=
  match y with
  | 0 => 0
  | n + 1 => 365 * (n + 1) + n / 4 + n / 400 - n / 100

/-- Model of `time.mktime(time.strptime(...))`: epoch seconds of the given
calendar time, UTC. -/
def mktimeModel (yr mo dy h mi : Nat) : Int :=
  (((daysBeforeYear yr + daysBeforeMonth mo (isLeapY yr) + (dy - 1) : Nat) : Int)
      - (daysBeforeYear 1970 : Int)) * 86400 + h * 3600 + mi * 60

/-- Modelled from the spec: `weeutil.weeutil.startOfDay` (not under `src/`)
floors a timestamp to the start of its day; modelled as UTC midnight. -/
def startOfDayModel (ts : Int) : Int := ts - ts % 86400

/-! ### `date2ts`: the issuance-time header parser

`time.strptime(s, "%H%M %b %d %Y")` is modelled per field.  The string `s`
is rebuilt from the whitespace-split parts 0, 4, 5, 6 joined by single
spaces, and each `strptime` field matcher must consume one whole part
(the parts contain no whitespace and every directive of the format needs
at least one character, so no match can straddle two parts). -/

/-- `%H%M` applied to one token: CPython tries hour patterns
`2[0-3] | [0-1][0-9] | [0-9]` then minute patterns `[0-5][0-9] | [0-9]`,
backtracking until the whole token is consumed. -/
def parseHM (t : List Char) : Option (Nat × Nat) :=
  if t.all Char.isDigit then
    match t with
    | [a, b] => some (digitsVal [a], digitsVal [b])
    | [a, b, c] =>
        if digitsVal [a, b] ≤ 23 then some (digitsVal [a, b], digitsVal [c])
        else if digitsVal [b, c] ≤ 59 then some (digitsVal [a], digitsVal [b, c])
        else none
    | [a, b, c, d] =>
        if digitsVal [a, b] ≤ 23 ∧ digitsVal [c, d] ≤ 59 then
          some (digitsVal [a, b], digitsVal [c, d])
        else none
    | _ => none
  else none

def pyLowerChar (c : Char) : Char :=
  if 'A' ≤ c ∧ c ≤ 'Z' then Char.ofNat (c.toNat + 32) else c

def monthAbbrevs : List (List Char) :=
  [cl "jan", cl "feb", cl "mar", cl "apr", cl "may", cl "jun",
   cl "jul", cl "aug", cl "sep", cl "oct", cl "nov", cl "dec"]

def monthFind : List (List Char) → Nat → List Char → Option Nat
  | [], _, _ => none
  | m :: rest, i, t => if t = m then some i else monthFind rest (i + 1) t

/-- `%b` applied to one token: a case-insensitive month abbreviation. -/
def monthNum (t : List Char) : Option Nat :=
  monthFind monthAbbrevs 1 (t.map pyLowerChar)

/-- `%d` applied to one token: `3[01] | [1-2][0-9] | 0[1-9] | [1-9]`. -/
def parseDay (t : List Char) : Option Nat :=
  if t.all Char.isDigit ∧
      ((t.length = 1 ∧ 1 ≤ digitsVal t) ∨
       (t.length = 2 ∧ 1 ≤ digitsVal t ∧ digitsVal t ≤ 31)) then
    some (digitsVal t)
  else none

/-- `%Y` applied to one token: exactly four digits. -/
def parseYear (t : List Char) : Option Nat :=
  if t.all Char.isDigit ∧ t.length = 4 then some (digitsVal t) else none

/-- `time.strptime(s, "%H%M %b %d %Y")` on the four rebuilt parts; a
mismatch raises `ValueError`. -/
def strptimeHMbdY (p0 p4 p5 p6 : List Char) :
    Except PErr (Nat × Nat × Nat × Nat × Nat) :=
  match parseHM p0, monthNum p4, parseDay p5, parseYear p6 with
  | some (h, mi), some mo, some dy, some yr => .ok (h, mi, mo, dy, yr)
  | _, _, _, _ => .error .valueError

/-- `date2ts` (forecast.py lines 771-781): convert an NWS date string such
as `418 PM EDT SAT MAY 11 2013` to epoch seconds, adding 12 hours when the
second token equals `PM`. -/
def date2ts (tstr : List Char) : Except PErr Int :=
  let parts := splitSp tstr
  match pyIdx parts 0, pyIdx parts 4, pyIdx parts 5, pyIdx parts 6 with
  | .ok p0, .ok p4, .ok p5, .ok p6 =>
      (match strptimeHMbdY p0 p4 p5 p6 with
       | .error e => .error e
       | .ok (h, mi, mo, dy, yr) =>
           let ts := mktimeModel yr mo dy h mi
           match pyIdx parts 1 with
           | .error e => .error e
           | .ok p1 => .ok (if p1 = cl "PM" then ts + 12 * 3600 else ts))
  | .error e, _, _, _ => .error e
  | .ok _, .error e, _, _ => .error e
  | .ok _, .ok _, .error e, _ => .error e
  | .ok _, .ok _, .ok _, .error e => .error e

example : date2ts (cl "BAD HEADER") = .error .indexError := rfl
example : (date2ts (cl "418 PM EDT SAT MAY 11 2013")).isOk = true := rfl

/-! ### Location block extraction (forecast.py lines 639-651) -/

/-- The accumulator is `none` until a line starting with the identifier is
seen; every identifier line restarts the block; a `$$` line seen while a
block is open ends the scan. -/
def extractLoop (sid : List Char) :
    List (List Char) → Option (List (List Char)) → Option (List (List Char))
  | [], acc => acc
  | line :: rest, acc =>
      if pyStarts sid line then extractLoop sid rest (some [line])
      else
        match acc with
        | none => extractLoop sid rest none
        | some ls =>
            if pyStarts (cl "$$") line then some ls
            else extractLoop sid rest (some (ls ++ [line]))

def extractBlock (alllines : List (List Char)) (sid : List Char) :
    Option (List (List Char)) :=
  extractLoop sid alllines none

/-! ### The label dictionary and the row scan (lines 582-613, 657-671) -/

def nwsLabelDict : List (List Char × List Char) :=
  [(cl "HOUR", cl "hour"),
   (cl "MIN/MAX", cl "tempMinMax"),
   (cl "MAX/MIN", cl "tempMaxMin"),
   (cl "TEMP", cl "temp"),
   (cl "DEWPT", cl "dewpoint"),
   (cl "RH", cl "humidity"),
   (cl "WIND DIR", cl "windDir"),
   (cl "PWIND DIR", cl "windDir"),
   (cl "WIND SPD", cl "windSpeed"),
   (cl "WIND GUST", cl "windGust"),
   (cl "WIND CHAR", cl "windChar"),
   (cl "CLOUDS", cl "clouds"),
   (cl "AVG CLOUDS", cl "clouds"),
   (cl "POP 12HR", cl "pop"),
   (cl "QPF 12HR", cl "qpf"),
   (cl "SNOW 12HR", cl "qsf"),
   (cl "RAIN", cl "rain"),
   (cl "RAIN SHWRS", cl "rainshwrs"),
   (cl "TSTMS", cl "tstms"),
   (cl "DRIZZLE", cl "drizzle"),
   (cl "SNOW", cl "snow"),
   (cl "SNOW SHWRS", cl "snowshwrs"),
   (cl "FLURRIES", cl "flurries"),
   (cl "SLEET", cl "sleet"),
   (cl "FRZNG RAIN", cl "frzngrain"),
   (cl "FRZNG DRZL", cl "frzngdrzl"),
   (cl "OBVIS", cl "obvis"),
   (cl "WIND CHILL", cl "windChill"),
   (cl "HEAT INDEX", cl "heatIndex")]

structure ScanSt where
  rows3 : List (List Char × List Char)
  rows6 : List (List Char × List Char)
  mode : Option Nat
  deriving DecidableEq

/-- One iteration of the row-classification loop.  The first 14 characters
are the label; `UTC`-prefixed labels are skipped; a label ending in
`3HRLY`/`6HRLY` becomes `HOUR` and sets the mode; recognized labels store
the data region (characters 14 onward) in the mode's row dict.  Reading
`mode` before any hour row assigned it raises `UnboundLocalError`. -/
def scanStep (st : ScanSt) (line : List Char) : Except PErr ScanSt :=
  let label := pyStrip (line.take 14)
  if pyStarts (cl "UTC") label then .ok st
  else
    let lm : List Char × Option Nat :=
      if pyEnds (cl "3HRLY") label then (cl "HOUR", some 3)
      else if pyEnds (cl "6HRLY") label then (cl "HOUR", some 6)
      else (label, st.mode)
    match alook nwsLabelDict lm.1 with
    | none => .ok { st with mode := lm.2 }
    | some field =>
        match lm.2 with
        | none => .error .unboundLocal
        | some m =>
            if m = 3 then
              .ok ⟨aset st.rows3 field (line.drop 14), st.rows6, some m⟩
            else if m = 6 then
              .ok ⟨st.rows3, aset st.rows6 field (line.drop 14), some m⟩
            else .ok { st with mode := some m }

def scanGo (st : ScanSt) : List (List Char) → Except PErr ScanSt
  | [] => .ok st
  | l :: rest =>
      match scanStep st l with
      | .ok st' => scanGo st' rest
      | .error e => .error e

/-! ### Time-axis construction (lines 681-720) -/

structure AxisOut where
  ts : List Int
  hour : List PVal
  idc : List (Nat × Nat)
  idx : Nat
  day : Int
  lasth : Option Int
  deriving DecidableEq

/-- The shared day-rollover rule: bump the running day by 24 hours whenever
the parsed hour is numerically below the previous one. -/
def rollDay (day : Int) (lasth : Option Int) (h : Int) : Int :=
  match lasth with
  | some lh => if h < lh then day + 24 * 3600 else day
  | none => day

/-- 3-hour pass (`for i in range(0, len(rows3['hour']), 3)`): the data
region is walked in 3-character cells starting at positions 0, 3, 6, …;
each cell's first two characters are parsed with `int`; the slot index is
recorded under key `i+1`. -/
def axis3go : List Char → Nat → Int → Option Int → Nat → Except PErr AxisOut
  | [], _, day, lasth, idx => .ok ⟨[], [], [], idx, day, lasth⟩
  | c0 :: c1 :: _ :: rest, pos, day, lasth, idx =>
      (match pyInt [c0, c1] with
       | .error e => .error e
       | .ok h =>
           match axis3go rest (pos + 3) (rollDay day lasth h) (some h)
               (idx + 1) with
           | .error e => .error e
           | .ok r =>
               .ok ⟨(rollDay day lasth h + h * 3600) :: r.ts,
                    pint h :: r.hour,
                    (pos + 1, idx) :: r.idc, r.idx, r.day, r.lasth⟩)
  | [c0, c1], pos, day, lasth, idx =>
      (match pyInt [c0, c1] with
       | .error e => .error e
       | .ok h =>
           .ok ⟨[rollDay day lasth h + h * 3600], [pint h],
                [(pos + 1, idx)], idx + 1, rollDay day lasth h, some h⟩)
  | [c0], pos, day, lasth, idx =>
      (match pyInt [c0] with
       | .error e => .error e
       | .ok h =>
           .ok ⟨[rollDay day lasth h + h * 3600], [pint h],
                [(pos + 1, idx)], idx + 1, rollDay day lasth h, some h⟩)

/-- 6-hour pass (`for i in range(0, len(rows6['hour']))`): a character walk
accumulating non-whitespace runs; a token closed by whitespace at position
`i` applies the rollover rule and records its slot under key `i-1`; a
trailing unterminated token is flushed at end of line under key `len-1`,
WITHOUT the rollover adjustment (forecast.py lines 715-720 repeat the loop
body minus the `h < lasth` day bump and the `lasth` update). -/
def axis6go : List Char → Nat → List Char → Int → Option Int → Nat →
    Except PErr AxisOut
  | [], pos, s, day, lasth, idx =>
      if s = [] then .ok ⟨[], [], [], idx, day, lasth⟩
      else
        (match pyInt s with
         | .error e => .error e
         | .ok h =>
             .ok ⟨[day + h * 3600], [pint h], [(pos - 1, idx)], idx + 1, day,
                  lasth⟩)
  | c :: rest, pos, s, day, lasth, idx =>
      if pyIsSpace c then
        if s = [] then axis6go rest (pos + 1) [] day lasth idx
        else
          (match pyInt s with
           | .error e => .error e
           | .ok h =>
               match axis6go rest (pos + 1) [] (rollDay day lasth h)
                   (some h) (idx + 1) with
               | .error e => .error e
               | .ok r =>
                   .ok ⟨(rollDay day lasth h + h * 3600) :: r.ts,
                        pint h :: r.hour,
                        (pos - 1, idx) :: r.idc, r.idx, r.day, r.lasth⟩)
      else axis6go rest (pos + 1) (s ++ [c]) day lasth idx

/-! ### `filldata` (lines 727-769) -/

/-- The per-label slice of the matrix dictionary: field name → per-slot
value list.  The scalar entries of the Python dict (`id`, `desc`,
`location`, `dateTime`) and the list `ts` are kept as separate record
fields below; no value of `nws_label_dict` collides with those keys, so
`label not in matrix.keys()` coincides with absence from this slice. -/
def MatrixData := List (List Char × List PVal)
  deriving DecidableEq, Inhabited

/-- Inner loop of `filldata` for one row: accumulate a token `s`; when
whitespace closes it at position `i`, look up slot `indices[i-1]` (a
missing key raises `KeyError`) and store the token there; flush a trailing
token under key `len-1`. -/
def fillrowGo : List Char → Nat → List Char → List (Nat × Nat) →
    List PVal → Except PErr (List PVal)
  | [], pos, s, idc, seq =>
      if s = [] then .ok seq
      else
        (match aget idc (pos - 1) with
         | .error e => .error e
         | .ok ix => pySet seq ix (pstr s))
  | c :: rest, pos, s, idc, seq =>
      if pyIsSpace c then
        if s = [] then fillrowGo rest (pos + 1) [] idc seq
        else
          (match aget idc (pos - 1) with
           | .error e => .error e
           | .ok ix =>
               match pySet seq ix (pstr s) with
               | .error e => .error e
               | .ok seq' => fillrowGo rest (pos + 1) [] idc seq')
      else fillrowGo rest (pos + 1) (s ++ [c]) idc seq

/-- `for label in rows.keys()`: create `matrix[label] = [None]*nidx` when
absent, then decode the row into it. -/
def fillRows (nidx : Nat) (idc : List (Nat × Nat)) :
    List (List Char × List Char) → MatrixData → Except PErr MatrixData
  | [], d => .ok d
  | (label, row) :: rest, d =>
      match fillrowGo row 0 [] idc
          ((alook d label).getD (List.replicate nidx pnone)) with
      | .error e => .error e
      | .ok seq' => fillRows nidx idc rest (aset d label seq')

def ensureKey (d : MatrixData) (k : List Char) (nidx : Nat) : MatrixData :=
  match alook d k with
  | some _ => d
  | none => aset d k (List.replicate nidx pnone)

/-- The min/max toggle (lines 748-769): walk slots `0 … nidx-1`; a non-null
source value goes to `tempMin` when the state is 0 and to `tempMax`
otherwise, flipping the state; a null source value changes nothing. -/
def mmGo : Nat → Nat → Nat → List PVal → List PVal → List PVal →
    Except PErr (Nat × List PVal × List PVal)
  | 0, _, state, _, tmin, tmax => .ok (state, tmin, tmax)
  | n + 1, i, state, src, tmin, tmax =>
      match pyIdx src i with
      | .error e => .error e
      | .ok v =>
          if v ≠ pnone then
            if state = 0 then
              match pySet tmin i v with
              | .error e => .error e
              | .ok tmin' => mmGo n (i + 1) 1 src tmin' tmax
            else
              match pySet tmax i v with
              | .error e => .error e
              | .ok tmax' => mmGo n (i + 1) 0 src tmin tmax'
          else mmGo n (i + 1) state src tmin tmax

/-- Resolve one combined min/max sequence (if present) into the `tempMin`
and `tempMax` sequences, then delete it.  `tempMin`/`tempMax` are always
present when this runs: `filldata` creates them immediately before. -/
def resolveKey (d : MatrixData) (srcKey : List Char) (st0 nidx : Nat) :
    Except PErr MatrixData :=
  match alook d srcKey with
  | none => .ok d
  | some src =>
      match mmGo nidx 0 st0 src ((alook d (cl "tempMin")).getD [])
          ((alook d (cl "tempMax")).getD []) with
      | .error e => .error e
      | .ok r =>
          .ok (adel (aset (aset d (cl "tempMin") r.2.1) (cl "tempMax") r.2.2)
                srcKey)

/-- `filldata(matrix, nidx, rows, indices)` (lines 727-769). -/
def filldata (d : MatrixData) (nidx : Nat)
    (rows : List (List Char × List Char)) (idc : List (Nat × Nat)) :
    Except PErr MatrixData :=
  match fillRows nidx idc rows d with
  | .error e => .error e
  | .ok d1 =>
      match resolveKey (ensureKey (ensureKey d1 (cl "tempMin") nidx)
          (cl "tempMax") nidx) (cl "tempMinMax") 0 nidx with
      | .error e => .error e
      | .ok d4 => resolveKey d4 (cl "tempMaxMin") 1 nidx

/-! ### `ParseNWSForecast` (lines 633-725) -/

structure NWSMatrix where
  sid : List Char
  desc : List Char
  location : List Char
  dateTime : Int
  ts : List Int
  data : MatrixData
  deriving DecidableEq, Inhabited

/-- Continuation of `parseNWSForecast` after block extraction, header
parsing and the row scan: matrix assembly (lines 673-725). -/
def parseTail (sid : List Char) (lines : List (List Char)) (ts : Int)
    (day0 : Int) (st : ScanSt) : Except PErr (Option NWSMatrix) :=
  match pyIdx lines 1, pyIdx lines 2 with
  | .ok desc, .ok loc =>
      (match aget st.rows3 (cl "hour") with
       | .error e => .error e
       | .ok hrow3 =>
           match axis3go hrow3 0 day0 none 0 with
           | .error e => .error e
           | .ok a3 =>
               match aget st.rows6 (cl "hour") with
               | .error e => .error e
               | .ok hrow6 =>
                   match axis6go hrow6 0 [] a3.day a3.lasth a3.idx with
                   | .error e => .error e
                   | .ok a6 =>
                       match filldata [(cl "hour", a3.hour ++ a6.hour)]
                           a6.idx st.rows3 a3.idc with
                       | .error e => .error e
                       | .ok d1 =>
                           match filldata d1 a6.idx st.rows6 a6.idc with
                           | .error e => .error e
                           | .ok d2 =>
                               .ok (some ⟨sid, desc, loc, ts,
                                          a3.ts ++ a6.ts, d2⟩))
  | .error e, _ => .error e
  | .ok _, .error e => .error e

/-- The full parse of one bulletin (given as its list of lines) for one
station identifier.  `.ok none` models `return None` ("no forecast"),
`.error e` models an uncaught Python exception. -/
def parseNWSForecast (alllines : List (List Char)) (sid : List Char) :
    Except PErr (Option NWSMatrix) :=
  match extractBlock alllines sid with
  | none => .ok none
  | some lines =>
      match pyIdx lines 3 with
      | .error e => .error e
      | .ok l3 =>
          match date2ts l3 with
          | .error e => .error e
          | .ok ts =>
              match scanGo ⟨[], [], none⟩ lines with
              | .error e => .error e
              | .ok st => parseTail sid lines ts (startOfDayModel ts) st

/-- Python `text.splitlines()`, modelled for newline-separated text. -/
def pySplitlinesGo : List Char → List Char → List (List Char)
  | [], acc => if acc.isEmpty then [] else [acc]
  | c :: rest, acc =>
      if c = '\n' then acc :: pySplitlinesGo rest []
      else pySplitlinesGo rest (acc ++ [c])

def pySplitlines (text : List Char) : List (List Char) :=
  pySplitlinesGo text []

/-- `ParseNWSForecast(text, id)` on raw bulletin text. -/
def parseNWSForecastText (text : List Char) (sid : List Char) :
    Except PErr (Option NWSMatrix) :=
  parseNWSForecast (pySplitlines text) sid

/-- TimeAxis strict increase, as an executable predicate. -/
def strictlyIncreasing : List Int → Bool
  | [] => true
  | [_] => true
  | a :: b :: rest => a < b && strictlyIncreasing (b :: rest)

/-! ### Characterization of the block extractor -/

/-- No line of `t` starts with the identifier or with the terminator. -/
def noIdNoTerm (sid : List Char) (t : List (List Char)) : Prop :=
  ∀ l ∈ t, pyStarts sid l = false ∧ pyStarts (cl "$$") l = false

/-- A captured block: non-empty, its head starts with the identifier, and
no later line of it starts with the identifier or the terminator. -/
def blockShape (sid : List Char) (blk : List (List Char)) : Prop :=
  ∃ h t, blk = h :: t ∧ pyStarts sid h = true ∧ noIdNoTerm sid t

/-- What follows a captured block: nothing, or a terminator line. -/
def cutOK (sid : List Char) (rest : List (List Char)) : Prop :=
  rest = [] ∨ ∃ r rs, rest = r :: rs ∧ pyStarts (cl "$$") r = true ∧
    pyStarts sid r = false

theorem extractLoop_acc_some (sid : List Char) :
    ∀ (lines cur blk : List (List Char)),
      extractLoop sid lines (some cur) = some blk →
      (∃ dl rest, lines = dl ++ rest ∧ blk = cur ++ dl ∧
        noIdNoTerm sid dl ∧ cutOK sid rest) ∨
      (∃ pre rest, lines = pre ++ blk ++ rest ∧ blockShape sid blk ∧
        cutOK sid rest) := by
  intro lines
  induction lines with
  | nil =>
      intro cur blk h
      simp [extractLoop] at h
      exact Or.inl ⟨[], [], by simp, by simp [h], by simp [noIdNoTerm],
        Or.inl rfl⟩
  | cons l rest' ih =>
      intro cur blk h
      by_cases hid : pyStarts sid l = true
      · rw [show extractLoop sid (l :: rest') (some cur) =
            extractLoop sid rest' (some [l]) by simp [extractLoop, hid]] at h
        rcases ih [l] blk h with ⟨dl, rest, h1, h2, h3, h4⟩ | ⟨pre, rest, h1, h2, h3⟩
        · refine Or.inr ⟨[], rest, ?_, ?_, h4⟩
          · simp [h1, h2]
          · exact ⟨l, dl, by simp [h2], hid, h3⟩
        · exact Or.inr ⟨l :: pre, rest, by simp [h1], h2, h3⟩
      · rw [Bool.not_eq_true] at hid
        by_cases hterm : pyStarts (cl "$$") l = true
        · rw [show extractLoop sid (l :: rest') (some cur) = some cur by
              simp [extractLoop, hid, hterm]] at h
          refine Or.inl ⟨[], l :: rest', by simp, by simpa using h.symm,
            by simp [noIdNoTerm], Or.inr ⟨l, rest', rfl, hterm, hid⟩⟩
        · rw [Bool.not_eq_true] at hterm
          rw [show extractLoop sid (l :: rest') (some cur) =
              extractLoop sid rest' (some (cur ++ [l])) by
              simp [extractLoop, hid, hterm]] at h
          rcases ih (cur ++ [l]) blk h with
            ⟨dl, rest, h1, h2, h3, h4⟩ | ⟨pre, rest, h1, h2, h3⟩
          · refine Or.inl ⟨l :: dl, rest, by simp [h1], by simp [h2], ?_, h4⟩
            intro x hx
            rcases List.mem_cons.mp hx with rfl | hx
            · exact ⟨hid, hterm⟩
            · exact h3 x hx
          · exact Or.inr ⟨l :: pre, rest, by simp [h1], h2, h3⟩

theorem extractLoop_none_some (sid : List Char) :
    ∀ (lines blk : List (List Char)),
      extractLoop sid lines none = some blk →
      ∃ pre rest, lines = pre ++ blk ++ rest ∧ blockShape sid blk ∧
        cutOK sid rest := by
  intro lines
  induction lines with
  | nil => intro blk h; simp [extractLoop] at h
  | cons l rest' ih =>
      intro blk h
      by_cases hid : pyStarts sid l = true
      · rw [show extractLoop sid (l :: rest') none =
            extractLoop sid rest' (some [l]) by simp [extractLoop, hid]] at h
        rcases extractLoop_acc_some sid rest' [l] blk h with
          ⟨dl, rest, h1, h2, h3, h4⟩ | ⟨pre, rest, h1, h2, h3⟩
        · refine ⟨[], rest, by simp [h1, h2], ⟨l, dl, by simp [h2], hid, h3⟩,
            h4⟩
        · exact ⟨l :: pre, rest, by simp [h1], h2, h3⟩
      · rw [Bool.not_eq_true] at hid
        rw [show extractLoop sid (l :: rest') none =
            extractLoop sid rest' none by simp [extractLoop, hid]] at h
        obtain ⟨pre, rest, h1, h2, h3⟩ := ih blk h
        exact ⟨l :: pre, rest, by simp [h1], h2, h3⟩

theorem extractLoop_some_ne_none (sid : List Char) :
    ∀ (lines cur : List (List Char)),
      extractLoop sid lines (some cur) ≠ none := by
  intro lines
  induction lines with
  | nil => intro cur h; simp [extractLoop] at h
  | cons l rest' ih =>
      intro cur h
      by_cases hid : pyStarts sid l = true
      · rw [show extractLoop sid (l :: rest') (some cur) =
            extractLoop sid rest' (some [l]) by simp [extractLoop, hid]] at h
        exact ih [l] h
      · rw [Bool.not_eq_true] at hid
        by_cases hterm : pyStarts (cl "$$") l = true
        · rw [show extractLoop sid (l :: rest') (some cur) = some cur by
              simp [extractLoop, hid, hterm]] at h
          exact Option.noConfusion h
        · rw [Bool.not_eq_true] at hterm
          rw [show extractLoop sid (l :: rest') (some cur) =
              extractLoop sid rest' (some (cur ++ [l])) by
              simp [extractLoop, hid, hterm]] at h
          exact ih (cur ++ [l]) h

theorem extractLoop_none_iff (sid : List Char) :
    ∀ lines : List (List Char),
      (extractLoop sid lines none = none ↔
        ∀ l ∈ lines, pyStarts sid l = false) := by
  intro lines
  induction lines with
  | nil => simp [extractLoop]
  | cons l rest' ih =>
      by_cases hid : pyStarts sid l = true
      · rw [show extractLoop sid (l :: rest') none =
            extractLoop sid rest' (some [l]) by simp [extractLoop, hid]]
        constructor
        · intro h; exact absurd h (extractLoop_some_ne_none sid rest' [l])
        · intro h; exact absurd (h l (List.mem_cons_self l rest')) (by
            simp [hid])
      · rw [Bool.not_eq_true] at hid
        rw [show extractLoop sid (l :: rest') none =
            extractLoop sid rest' none by simp [extractLoop, hid]]
        rw [ih]
        constructor
        · intro h x hx
          rcases List.mem_cons.mp hx with rfl | hx
          · exact hid
          · exact h x hx
        · intro h x hx; exact h x (List.mem_cons_of_mem l hx)

/-! ### Token decomposition of a data row

`tokensWithEnds row pos s` lists the whitespace-delimited tokens of `row`
(continuing an open token `s` whose scan reached position `pos`), each
paired with the column position of its last character — the position
`fillrowGo` looks up in the slot-index map. -/

def tokensWithEnds : List Char → Nat → List Char → List (List Char × Nat)
  | [], pos, s => if s = [] then [] else [(s, pos - 1)]
  | c :: rest, pos, s =>
      if pyIsSpace c then
        if s = [] then tokensWithEnds rest (pos + 1) []
        else (s, pos - 1) :: tokensWithEnds rest (pos + 1) []
      else tokensWithEnds rest (pos + 1) (s ++ [c])

example : tokensWithEnds (cl "05 08 11") 0 [] =
    [(cl "05", 1), (cl "08", 4), (cl "11", 7)] := by decide

/-- When every mapped slot is within bounds, the row decoder raises
`KeyError` exactly when some token's ending column position is missing
from the slot-index map. -/
theorem fillrowGo_keyError_iff :
    ∀ (row : List Char) (pos : Nat) (s : List Char)
      (idc : List (Nat × Nat)) (seq : List PVal),
      (∀ p ix, alook idc p = some ix → ix < seq.length) →
      (fillrowGo row pos s idc seq = .error .keyError ↔
        ∃ tp ∈ tokensWithEnds row pos s, alook idc tp.2 = none) := by
  intro row
  induction row with
  | nil =>
      intro pos s idc seq hbound
      by_cases hs : s = []
      · subst hs
        simp [fillrowGo, tokensWithEnds]
      · cases halook : alook idc (pos - 1) with
        | none =>
            have hag : aget idc (pos - 1) = .error .keyError := by
              unfold aget; rw [halook]
            simp only [fillrowGo, if_neg hs, hag, tokensWithEnds]
            constructor
            · intro _
              exact ⟨(s, pos - 1), by simp, halook⟩
            · intro _; trivial
        | some ix =>
            have hag : aget idc (pos - 1) = .ok ix := by
              unfold aget; rw [halook]
            have hps : pySet seq ix (pstr s) = .ok (seq.set ix (pstr s)) := by
              unfold pySet; rw [if_pos (hbound _ _ halook)]
            simp only [fillrowGo, if_neg hs, hag, hps, tokensWithEnds]
            constructor
            · intro hcon; exact Except.noConfusion hcon
            · rintro ⟨tp, htp, hnone⟩
              simp at htp
              subst htp
              simp [halook] at hnone
  | cons c rest ih =>
      intro pos s idc seq hbound
      by_cases hc : pyIsSpace c = true
      · by_cases hs : s = []
        · subst hs
          simp only [fillrowGo, tokensWithEnds, hc, if_pos rfl, if_true]
          exact ih (pos + 1) [] idc seq hbound
        · cases halook : alook idc (pos - 1) with
          | none =>
              have hag : aget idc (pos - 1) = .error .keyError := by
                unfold aget; rw [halook]
              simp only [fillrowGo, tokensWithEnds, hc, if_true, if_neg hs,
                hag]
              constructor
              · intro _
                exact ⟨(s, pos - 1), by simp, halook⟩
              · intro _; trivial
          | some ix =>
              have hag : aget idc (pos - 1) = .ok ix := by
                unfold aget; rw [halook]
              have hps : pySet seq ix (pstr s) =
                  .ok (seq.set ix (pstr s)) := by
                unfold pySet; rw [if_pos (hbound _ _ halook)]
              simp only [fillrowGo, tokensWithEnds, hc, if_true, if_neg hs,
                hag, hps]
              have hbound' : ∀ p jx, alook idc p = some jx →
                  jx < (seq.set ix (pstr s)).length := by
                intro p jx hp
                rw [List.length_set]
                exact hbound p jx hp
              rw [ih (pos + 1) [] idc (seq.set ix (pstr s)) hbound']
              constructor
              · rintro ⟨tp, htp, hnone⟩
                exact ⟨tp, List.mem_cons_of_mem _ htp, hnone⟩
              · rintro ⟨tp, htp, hnone⟩
                rcases List.mem_cons.mp htp with rfl | htp'
                · simp [halook] at hnone
                · exact ⟨tp, htp', hnone⟩
      · rw [Bool.not_eq_true] at hc
        simp only [fillrowGo, tokensWithEnds, hc, if_false]
        exact ih (pos + 1) (s ++ [c]) idc seq hbound

/-! ### Lookup behavior of the min/max resolution -/

theorem resolveKey_removes (d : MatrixData) (key : List Char)
    (st0 nidx : Nat) (d' : MatrixData)
    (h : resolveKey d key st0 nidx = .ok d') : alook d' key = none := by
  unfold resolveKey at h
  split at h
  · next halook => cases h; exact halook
  · next src halook =>
      split at h
      · exact Except.noConfusion h
      · cases h
        rw [alook_adel]
        simp

theorem resolveKey_other (d : MatrixData) (key k' : List Char)
    (st0 nidx : Nat) (d' : MatrixData)
    (h1 : k' ≠ key) (h2 : k' ≠ cl "tempMin") (h3 : k' ≠ cl "tempMax")
    (h : resolveKey d key st0 nidx = .ok d') :
    alook d' k' = alook d k' := by
  unfold resolveKey at h
  split at h
  · next halook => cases h; rfl
  · next src halook =>
      split at h
      · exact Except.noConfusion h
      · cases h
        rw [alook_adel, if_neg h1, alook_aset_ne _ _ _ _ h3,
          alook_aset_ne _ _ _ _ h2]

/-- `filldata` leaves no combined min/max key in the matrix data. -/
theorem filldata_removes_minmax (d : MatrixData) (nidx : Nat)
    (rows : List (List Char × List Char)) (idc : List (Nat × Nat))
    (d' : MatrixData) (h : filldata d nidx rows idc = .ok d') :
    alook d' (cl "tempMinMax") = none ∧ alook d' (cl "tempMaxMin") = none := by
  unfold filldata at h
  split at h
  · exact Except.noConfusion h
  · next d1 hfr =>
      split at h
      · exact Except.noConfusion h
      · next d4 hr1 =>
          constructor
          · rw [resolveKey_other d4 (cl "tempMaxMin") (cl "tempMinMax") 1 nidx
                d' (by decide) (by decide) (by decide) h]
            exact resolveKey_removes _ _ _ _ _ hr1
          · exact resolveKey_removes _ _ _ _ _ h

/-! ### Shape of the 3-hour and 6-hour axis passes -/

/-- A successful 3-hour pass over a data region emits exactly one entry
per 3-character cell, in row order, and its slot-index map is keyed by
each cell's starting position plus one. -/
theorem axis3go_spec :
    ∀ (data : List Char) (pos : Nat) (day : Int) (lasth : Option Int)
      (idx : Nat) (r : AxisOut),
      axis3go data pos day lasth idx = .ok r →
      r.ts.length = (data.length + 2) / 3 ∧
      r.hour.length = r.ts.length ∧
      r.idx = idx + r.ts.length ∧
      r.idc = (List.range r.ts.length).map
        (fun k => (pos + 3 * k + 1, idx + k)) := by
  intro data pos day lasth idx
  induction data, pos, day, lasth, idx using axis3go.induct with
  | case1 pos day lasth idx =>
      intro r h
      cases h
      simp
  | case2 c0 c1 c2 rest pos day lasth idx e hpy =>
      intro r h
      simp only [axis3go, hpy] at h
      exact Except.noConfusion h
  | case3 c0 c1 c2 rest pos day lasth idx h0 hpy e hrec ih =>
      intro r h
      simp only [axis3go, hpy, hrec] at h
      exact Except.noConfusion h
  | case4 c0 c1 c2 rest pos day lasth idx h0 hpy r' hrec ih =>
      intro r h
      simp only [axis3go, hpy, hrec] at h
      cases h
      obtain ⟨ih1, ih2, ih3, ih4⟩ := ih r' hrec
      refine ⟨?_, ?_, ?_, ?_⟩
      · simp only [List.length_cons, ih1]
        omega
      · simp [ih2, ih1]
      · simp only [List.length_cons, ih3]
        omega
      · simp only [List.length_cons]
        rw [List.range_succ_eq_map, List.map_cons, List.map_map, ih4]
        refine congrArg₂ List.cons (by simp) ?_
        apply List.map_congr_left
        intro a _
        simp only [Function.comp_apply, Prod.mk.injEq]
        omega
  | case5 c0 c1 pos day lasth idx e hpy =>
      intro r h
      simp only [axis3go, hpy] at h
      exact Except.noConfusion h
  | case6 c0 c1 pos day lasth idx h0 hpy =>
      intro r h
      simp only [axis3go, hpy] at h
      cases h
      refine ⟨by simp, by simp, by simp, ?_⟩
      simp [List.range_succ]
  | case7 c0 pos day lasth idx e hpy =>
      intro r h
      simp only [axis3go, hpy] at h
      exact Except.noConfusion h
  | case8 c0 pos day lasth idx h0 hpy =>
      intro r h
      simp only [axis3go, hpy] at h
      cases h
      refine ⟨by simp, by simp, by simp, ?_⟩
      simp [List.range_succ]

/-- Lengths and slot count of a successful 6-hour pass. -/
theorem axis6go_len :
    ∀ (data : List Char) (pos : Nat) (s : List Char) (day : Int)
      (lasth : Option Int) (idx : Nat) (r : AxisOut),
      axis6go data pos s day lasth idx = .ok r →
      r.hour.length = r.ts.length ∧ r.idx = idx + r.ts.length := by
  intro data pos s day lasth idx
  induction data, pos, s, day, lasth, idx using axis6go.induct with
  | case1 pos day lasth idx =>
      intro r h
      rw [show axis6go [] pos [] day lasth idx =
          .ok ⟨[], [], [], idx, day, lasth⟩ from rfl] at h
      cases h
      simp
  | case2 pos s day lasth idx hs e hpy =>
      intro r h
      simp only [axis6go, if_neg hs, hpy] at h
      exact Except.noConfusion h
  | case3 pos s day lasth idx hs h0 hpy =>
      intro r h
      simp only [axis6go, if_neg hs, hpy] at h
      cases h
      simp
  | case4 c rest pos day lasth idx hc ih =>
      intro r h
      rw [show axis6go (c :: rest) pos [] day lasth idx =
          axis6go rest (pos + 1) [] day lasth idx by
          simp [axis6go, hc]] at h
      exact ih r h
  | case5 c rest pos s day lasth idx hc hs e hpy =>
      intro r h
      simp only [axis6go, if_pos hc, if_neg hs, hpy] at h
      exact Except.noConfusion h
  | case6 c rest pos s day lasth idx hc hs h0 hpy e hrec ih =>
      intro r h
      simp only [axis6go, if_pos hc, if_neg hs, hpy, hrec] at h
      exact Except.noConfusion h
  | case7 c rest pos s day lasth idx hc hs h0 hpy r' hrec ih =>
      intro r h
      simp only [axis6go, if_pos hc, if_neg hs, hpy, hrec] at h
      cases h
      obtain ⟨ih1, ih2⟩ := ih r' hrec
      constructor
      · simp [ih1]
      · simp only [List.length_cons, ih2]
        omega
  | case8 c rest pos s day lasth idx hc ih =>
      intro r h
      rw [show axis6go (c :: rest) pos s day lasth idx =
          axis6go rest (pos + 1) (s ++ [c]) day lasth idx by
          simp [axis6go, hc]] at h
      exact ih r h

/-! ### Scan behavior without hour rows -/

/-- A scan step over a line whose label is no hour row either raises
`UnboundLocalError` (recognized label, mode never assigned) or leaves the
state untouched. -/
theorem scanStep_no_hour (st : ScanSt) (l : List Char)
    (hm : st.mode = none)
    (h3 : pyEnds (cl "3HRLY") (pyStrip (l.take 14)) = false)
    (h6 : pyEnds (cl "6HRLY") (pyStrip (l.take 14)) = false) :
    scanStep st l = .error .unboundLocal ∨ scanStep st l = .ok st := by
  by_cases hutc : pyStarts (cl "UTC") (pyStrip (l.take 14)) = true
  · right
    simp [scanStep, hutc]
  · rw [Bool.not_eq_true] at hutc
    cases hdict : alook nwsLabelDict (pyStrip (l.take 14)) with
    | none =>
        right
        simp [scanStep, hutc, h3, h6, hdict]
    | some f =>
        left
        simp [scanStep, hutc, h3, h6, hdict, hm]

theorem scanGo_no_hour :
    ∀ (lines : List (List Char)) (st : ScanSt), st.mode = none →
      (∀ l ∈ lines, pyEnds (cl "3HRLY") (pyStrip (l.take 14)) = false ∧
        pyEnds (cl "6HRLY") (pyStrip (l.take 14)) = false) →
      scanGo st lines = .error .unboundLocal ∨ scanGo st lines = .ok st := by
  intro lines
  induction lines with
  | nil => intro st _ _; right; rfl
  | cons l rest ih =>
      intro st hm hall
      rcases scanStep_no_hour st l hm
          (hall l (List.mem_cons_self _ _)).1
          (hall l (List.mem_cons_self _ _)).2 with he | hok
      · left
        simp [scanGo, he]
      · rw [show scanGo st (l :: rest) = scanGo st rest by
            simp [scanGo, hok]]
        exact ih st hm fun x hx => hall x (List.mem_cons_of_mem _ hx)

/-- `true` exactly when the parse raised an exception. -/
def raisesError (r : Except PErr (Option NWSMatrix)) : Bool :=
  match r with
  | .error _ => true
  | .ok _ => false

/-! ### Length preservation through `filldata` -/

theorem pySet_length {α : Type} (l : List α) (i : Nat) (v : α) (l' : List α)
    (h : pySet l i v = .ok l') : l'.length = l.length := by
  unfold pySet at h
  split at h
  · cases h
    exact List.length_set l i v
  · exact Except.noConfusion h

theorem fillrowGo_length :
    ∀ (row : List Char) (pos : Nat) (s : List Char)
      (idc : List (Nat × Nat)) (seq seq' : List PVal),
      fillrowGo row pos s idc seq = .ok seq' → seq'.length = seq.length := by
  intro row
  induction row with
  | nil =>
      intro pos s idc seq seq' h
      unfold fillrowGo at h
      split at h
      · cases h; rfl
      · split at h
        · exact Except.noConfusion h
        · exact pySet_length _ _ _ _ h
  | cons c rest ih =>
      intro pos s idc seq seq' h
      unfold fillrowGo at h
      split at h
      · split at h
        · exact ih _ _ _ _ _ h
        · split at h
          · exact Except.noConfusion h
          · split at h
            · exact Except.noConfusion h
            · next seq'' hset =>
                exact (ih _ _ _ _ _ h).trans (pySet_length _ _ _ _ hset)
      · exact ih _ _ _ _ _ h

theorem mmGo_length :
    ∀ (n i st : Nat) (src tmin tmax : List PVal)
      (r : Nat × List PVal × List PVal),
      mmGo n i st src tmin tmax = .ok r →
      r.2.1.length = tmin.length ∧ r.2.2.length = tmax.length := by
  intro n
  induction n with
  | zero =>
      intro i st src tmin tmax r h
      unfold mmGo at h
      cases h
      exact ⟨rfl, rfl⟩
  | succ n ih =>
      intro i st src tmin tmax r h
      unfold mmGo at h
      split at h
      · exact Except.noConfusion h
      · split at h
        · split at h
          · split at h
            · exact Except.noConfusion h
            · next tm hset =>
                obtain ⟨h1, h2⟩ := ih _ _ _ _ _ _ h
                exact ⟨h1.trans (pySet_length _ _ _ _ hset), h2⟩
          · split at h
            · exact Except.noConfusion h
            · next tx hset =>
                obtain ⟨h1, h2⟩ := ih _ _ _ _ _ _ h
                exact ⟨h1, h2.trans (pySet_length _ _ _ _ hset)⟩
        · exact ih _ _ _ _ _ _ h

/-- The invariant that every per-field value list in the matrix dictionary
has exactly `n` entries. -/
def DInv (d : MatrixData) (n : Nat) : Prop :=
  ∀ k v, alook d k = some v → v.length = n

theorem DInv_aset (d : MatrixData) (n : Nat) (k : List Char) (v : List PVal)
    (hd : DInv d n) (hv : v.length = n) : DInv (aset d k v) n := by
  intro k' v' h
  by_cases hk : k' = k
  · subst hk
    rw [alook_aset_self] at h
    cases h
    exact hv
  · rw [alook_aset_ne _ _ _ _ hk] at h
    exact hd k' v' h

theorem DInv_adel (d : MatrixData) (n : Nat) (k : List Char)
    (hd : DInv d n) : DInv (adel d k) n := by
  intro k' v' h
  rw [alook_adel] at h
  split at h
  · exact Option.noConfusion h
  · exact hd k' v' h

theorem fillRows_DInv :
    ∀ (rows : List (List Char × List Char)) (d d' : MatrixData)
      (nidx : Nat) (idc : List (Nat × Nat)),
      DInv d nidx → fillRows nidx idc rows d = .ok d' → DInv d' nidx := by
  intro rows
  induction rows with
  | nil =>
      intro d d' nidx idc hd h
      unfold fillRows at h
      cases h
      exact hd
  | cons p rest ih =>
      obtain ⟨label, row⟩ := p
      intro d d' nidx idc hd h
      unfold fillRows at h
      split at h
      · exact Except.noConfusion h
      · next seq' hfr =>
          refine ih _ _ _ _ (DInv_aset _ _ _ _ hd ?_) h
          rw [fillrowGo_length _ _ _ _ _ _ hfr]
          cases hl : alook d label with
          | some s => simpa [hl] using hd label s hl
          | none => simp [hl]

theorem ensureKey_DInv (d : MatrixData) (n : Nat) (k : List Char)
    (hd : DInv d n) : DInv (ensureKey d k n) n := by
  unfold ensureKey
  split
  · exact hd
  · exact DInv_aset _ _ _ _ hd (by simp)

theorem ensureKey_mem (d : MatrixData) (n : Nat) (k : List Char) :
    ∃ v, alook (ensureKey d k n) k = some v := by
  unfold ensureKey
  split
  · next v hv => exact ⟨v, hv⟩
  · exact ⟨_, alook_aset_self _ _ _⟩

theorem ensureKey_other (d : MatrixData) (n : Nat) (k k' : List Char)
    (h : k' ≠ k) : alook (ensureKey d k n) k' = alook d k' := by
  unfold ensureKey
  split
  · rfl
  · exact alook_aset_ne _ _ _ _ h

theorem resolveKey_DInv (d : MatrixData) (key : List Char) (st0 n : Nat)
    (d' : MatrixData) (hd : DInv d n)
    (hmin : ∃ v, alook d (cl "tempMin") = some v)
    (hmax : ∃ v, alook d (cl "tempMax") = some v)
    (h : resolveKey d key st0 n = .ok d') : DInv d' n := by
  unfold resolveKey at h
  split at h
  · cases h; exact hd
  · next src hsrc =>
      split at h
      · exact Except.noConfusion h
      · next r hmm =>
          cases h
          obtain ⟨tm, htm⟩ := hmin
          obtain ⟨tx, htx⟩ := hmax
          rw [htm, htx] at hmm
          simp only [Option.getD_some] at hmm
          obtain ⟨h1, h2⟩ := mmGo_length _ _ _ _ _ _ _ hmm
          refine DInv_adel _ _ _ (DInv_aset _ _ _ _
            (DInv_aset _ _ _ _ hd ?_) ?_)
          · rw [h1]; exact hd _ _ htm
          · rw [h2]; exact hd _ _ htx

theorem resolveKey_tempMin_present (d : MatrixData) (key : List Char)
    (st0 n : Nat) (d' : MatrixData) (hk : cl "tempMin" ≠ key)
    (h : resolveKey d key st0 n = .ok d')
    (hp : ∃ v, alook d (cl "tempMin") = some v) :
    ∃ v, alook d' (cl "tempMin") = some v := by
  unfold resolveKey at h
  split at h
  · cases h; exact hp
  · next src hsrc =>
      split at h
      · exact Except.noConfusion h
      · next r hmm =>
          cases h
          refine ⟨r.2.1, ?_⟩
          rw [alook_adel, if_neg hk, alook_aset_ne _ _ _ _ (by decide),
            alook_aset_self]

theorem resolveKey_tempMax_present (d : MatrixData) (key : List Char)
    (st0 n : Nat) (d' : MatrixData) (hk : cl "tempMax" ≠ key)
    (h : resolveKey d key st0 n = .ok d')
    (hp : ∃ v, alook d (cl "tempMax") = some v) :
    ∃ v, alook d' (cl "tempMax") = some v := by
  unfold resolveKey at h
  split at h
  · cases h; exact hp
  · next src hsrc =>
      split at h
      · exact Except.noConfusion h
      · next r hmm =>
          cases h
          exact ⟨r.2.2, by rw [alook_adel, if_neg hk, alook_aset_self]⟩

theorem filldata_DInv (d : MatrixData) (n : Nat)
    (rows : List (List Char × List Char)) (idc : List (Nat × Nat))
    (d' : MatrixData) (hd : DInv d n)
    (h : filldata d n rows idc = .ok d') : DInv d' n := by
  unfold filldata at h
  split at h
  · exact Except.noConfusion h
  · next d1 hfr =>
      have hd1 : DInv d1 n := fillRows_DInv rows d d1 n idc hd hfr
      have hd3 : DInv (ensureKey (ensureKey d1 (cl "tempMin") n)
          (cl "tempMax") n) n :=
        ensureKey_DInv _ _ _ (ensureKey_DInv _ _ _ hd1)
      have hmin3 : ∃ v, alook (ensureKey (ensureKey d1 (cl "tempMin") n)
          (cl "tempMax") n) (cl "tempMin") = some v := by
        rw [ensureKey_other _ _ _ _ (by decide)]
        exact ensureKey_mem _ _ _
      have hmax3 : ∃ v, alook (ensureKey (ensureKey d1 (cl "tempMin") n)
          (cl "tempMax") n) (cl "tempMax") = some v := ensureKey_mem _ _ _
      split at h
      · exact Except.noConfusion h
      · next d4 hr4 =>
          have hd4 : DInv d4 n :=
            resolveKey_DInv _ _ _ _ _ hd3 hmin3 hmax3 hr4
          exact resolveKey_DInv _ _ _ _ _ hd4
            (resolveKey_tempMin_present _ _ _ _ _ (by decide) hr4 hmin3)
            (resolveKey_tempMax_present _ _ _ _ _ (by decide) hr4 hmax3) h

/-! ### Concrete bulletins used as evidence -/

/-- A well-formed minimal bulletin whose 6-hour hour row ends in a trailing
token (`02`) with no whitespace after it, crossing midnight relative to the
last 3-hour entry (`20`). -/
def sampleBulletin : List (List Char) :=
  [cl "KABC FOO",
   cl "POINT FORECAST MATRIX",
   cl "SOMEWHERE USA",
   cl "418 PM EDT SAT MAY 11 2013",
   cl "EDT 3HRLY     20 ",
   cl "EDT 6HRLY      02"]

/-- The matrix the decoder produces from `sampleBulletin`. -/
def sampleMatrix : NWSMatrix :=
  match parseNWSForecast sampleBulletin (cl "KABC") with
  | .ok (some m) => m
  | _ => default

/-- Claim C1: for every bulletin from which `ParseNWSForecast` produces a
matrix (including bulletins whose 6-hour hour row ends in a trailing token
with no whitespace after it), `matrix['ts']` is strictly increasing.  This
FAILS on the code: the trailing-token flush (forecast.py lines 715-720)
omits the day-rollover adjustment, so `sampleBulletin` — hours 20 then a
trailing 02 — yields a matrix whose second timestamp is 34800 seconds
BELOW the first. -/
theorem timeaxis_not_increasing_at_trailing_rollover :
    parseNWSForecast sampleBulletin (cl "KABC") = .ok (some sampleMatrix) ∧
      strictlyIncreasing sampleMatrix.ts = false ∧
      sampleMatrix.ts = [1368302400, 1368237600] :=
  ⟨rfl, rfl, rfl⟩

/-- Claim C2, counterexample: a row whose only token `7` ends at column 0,
while the slot-index map contains only the key 1.  Instead of dropping the
token and continuing, `filldata` raises `KeyError` (the dict subscript
`indices[i-1]` at line 736 has no `.get` fallback), aborting the parse. -/
theorem filldata_unmapped_token_keyError :
    filldata [] 1 [(cl "temp", cl "7  ")] [(1, 0)] = .error .keyError ∧
      alook [(1, 0)] (0 : Nat) = (none : Option Nat) :=
  ⟨rfl, rfl⟩

/-- Claim C3, counterexample: a block whose fourth line `BAD HEADER` does
not match the expected pattern.  `ParseNWSForecast` does not return `None`:
`date2ts` raises (`parts[4]` is an out-of-range access) and the exception
propagates. -/
theorem parse_malformed_header_raises :
    parseNWSForecast [cl "KDEF X", cl "DESC", cl "LOC", cl "BAD HEADER"]
        (cl "KDEF") = .error .indexError ∧
      (Except.error .indexError ≠
        (.ok none : Except PErr (Option NWSMatrix))) :=
  ⟨rfl, fun h => Except.noConfusion h⟩

/-- Claim C4, counterexample: a block that contains the station identifier
and a valid issuance header but no `3HRLY`/`6HRLY` hour row.  Instead of
returning an empty or null matrix, `ParseNWSForecast` raises `KeyError` at
`rows3['hour']` (line 687). -/
theorem parse_no_hour_rows_keyError :
    parseNWSForecast
        [cl "KGHI X", cl "DESC", cl "LOC", cl "418 PM EDT SAT MAY 11 2013"]
        (cl "KGHI") = .error .keyError ∧
      (Except.error .keyError ≠
        (.ok none : Except PErr (Option NWSMatrix))) :=
  ⟨rfl, fun h => Except.noConfusion h⟩

/-- Claim C7, counterexample: the 3-hour pass over the data region
`20 23 ` (cells starting at columns 0 and 3) records the slot indices
under keys 1 and 4 — each cell's starting column position PLUS ONE (the
ending column of the 2-digit hour token), not the starting position: the
map has no entry at key 0. -/
theorem indices3_not_keyed_at_cell_start :
    axis3go (cl "20 23 ") 0 0 none 0 =
      .ok ⟨[72000, 82800], [pint 20, pint 23], [(1, 0), (4, 1)], 2, 0,
           some 23⟩ ∧
      alook [((1 : Nat), (0 : Nat)), (4, 1)] (0 : Nat) = none ∧
      alook [((1 : Nat), (0 : Nat)), (4, 1)] (1 : Nat) = some 0 :=
  ⟨rfl, rfl, rfl⟩

/-- Claim C5: the combined min/max resolver walks the slots in order with
a two-valued state; a non-null source value is assigned to the current
target (`tempMin` when the state is 0, `tempMax` otherwise) and flips the
state, while a null source value leaves both target sequences unchanged
(hence null at that slot for freshly created targets) and does not flip
the state; the worked example holds both min-first (`tempMinMax`,
initial state 0) and max-first (`tempMaxMin`, initial state 1, roles
swapped); and the combined source sequence is removed from the result. -/
theorem minmax_resolver_spec :
    (∀ (n i : Nat) (src tmin tmax : List PVal) (v : PVal)
        (tmin' : List PVal),
        pyIdx src i = .ok v → v ≠ pnone → pySet tmin i v = .ok tmin' →
        mmGo (n + 1) i 0 src tmin tmax = mmGo n (i + 1) 1 src tmin' tmax) ∧
    (∀ (n i st : Nat) (src tmin tmax : List PVal) (v : PVal)
        (tmax' : List PVal),
        pyIdx src i = .ok v → v ≠ pnone → st ≠ 0 →
        pySet tmax i v = .ok tmax' →
        mmGo (n + 1) i st src tmin tmax = mmGo n (i + 1) 0 src tmin tmax') ∧
    (∀ (n i st : Nat) (src tmin tmax : List PVal),
        pyIdx src i = .ok pnone →
        mmGo (n + 1) i st src tmin tmax = mmGo n (i + 1) st src tmin tmax) ∧
    (filldata [(cl "tempMinMax",
        [pnone, pstr (cl "45"), pnone, pstr (cl "62"), pstr (cl "30")])]
        5 [] [] =
      .ok [(cl "tempMin",
             [pnone, pstr (cl "45"), pnone, pnone, pstr (cl "30")]),
           (cl "tempMax",
             [pnone, pnone, pnone, pstr (cl "62"), pnone])]) ∧
    (filldata [(cl "tempMaxMin",
        [pnone, pstr (cl "45"), pnone, pstr (cl "62"), pstr (cl "30")])]
        5 [] [] =
      .ok [(cl "tempMin",
             [pnone, pnone, pnone, pstr (cl "62"), pnone]),
           (cl "tempMax",
             [pnone, pstr (cl "45"), pnone, pnone, pstr (cl "30")])]) ∧
    (∀ (d : MatrixData) (nidx : Nat) (rows : List (List Char × List Char))
        (idc : List (Nat × Nat)) (d' : MatrixData),
        filldata d nidx rows idc = .ok d' →
        alook d' (cl "tempMinMax") = none ∧
          alook d' (cl "tempMaxMin") = none) := by
  refine ⟨?_, ?_, ?_, rfl, rfl, filldata_removes_minmax⟩
  · intro n i src tmin tmax v tmin' h1 h2 h3
    simp [mmGo, h1, h2, h3]
  · intro n i st src tmin tmax v tmax' h1 h2 hst h3
    simp [mmGo, h1, h2, hst, h3]
  · intro n i st src tmin tmax h1
    simp [mmGo, h1]

/-- Claim C5, witness: the resolver theorem instantiated at concrete
slots — a non-null value in state 0, a non-null value in state 1, a null
value, and a concrete `filldata` run with no combined key left. -/
theorem minmax_resolver_spec_witness :
    (mmGo 1 0 0 [pstr (cl "45")] [pnone] [pnone] =
      mmGo 0 1 1 [pstr (cl "45")] [pstr (cl "45")] [pnone]) ∧
    (mmGo 1 0 1 [pstr (cl "62")] [pnone] [pnone] =
      mmGo 0 1 0 [pstr (cl "62")] [pnone] [pstr (cl "62")]) ∧
    (mmGo 1 0 0 [pnone] [pnone] [pnone] =
      mmGo 0 1 0 [pnone] [pnone] [pnone]) ∧
    (alook [(cl "tempMin", ([] : List PVal)), (cl "tempMax", [])]
        (cl "tempMinMax") = none ∧
      alook [(cl "tempMin", ([] : List PVal)), (cl "tempMax", [])]
        (cl "tempMaxMin") = none) :=
  ⟨minmax_resolver_spec.1 0 0 [pstr (cl "45")] [pnone] [pnone]
      (pstr (cl "45")) [pstr (cl "45")] rfl (by decide) rfl,
   minmax_resolver_spec.2.1 0 0 1 [pstr (cl "62")] [pnone] [pnone]
      (pstr (cl "62")) [pstr (cl "62")] rfl (by decide) (by decide) rfl,
   minmax_resolver_spec.2.2.1 0 0 0 [pnone] [pnone] [pnone] rfl,
   minmax_resolver_spec.2.2.2.2.2 [] 0 [] []
      [(cl "tempMin", []), (cl "tempMax", [])] rfl⟩

/-- Claim C9: the granularity used to decode a recognized labeled row is
the mode set by the nearest preceding hour-label row and persists until
the next one: a `UTC` row is skipped outright; a `3HRLY` (resp. `6HRLY`)
row stores its data region as the `hour` row of `rows3` (resp. `rows6`)
and sets the mode; a recognized non-hour row is routed to `rows3` when the
mode is 3 and to `rows6` when it is 6, leaving the mode and the other row
set unchanged; an unrecognized non-hour row changes nothing. -/
theorem scan_mode_routing :
    (∀ (st : ScanSt) (line : List Char),
        pyStarts (cl "UTC") (pyStrip (line.take 14)) = true →
        scanStep st line = .ok st) ∧
    (∀ (st : ScanSt) (line : List Char),
        pyStarts (cl "UTC") (pyStrip (line.take 14)) = false →
        pyEnds (cl "3HRLY") (pyStrip (line.take 14)) = true →
        scanStep st line =
          .ok ⟨aset st.rows3 (cl "hour") (line.drop 14), st.rows6, some 3⟩) ∧
    (∀ (st : ScanSt) (line : List Char),
        pyStarts (cl "UTC") (pyStrip (line.take 14)) = false →
        pyEnds (cl "3HRLY") (pyStrip (line.take 14)) = false →
        pyEnds (cl "6HRLY") (pyStrip (line.take 14)) = true →
        scanStep st line =
          .ok ⟨st.rows3, aset st.rows6 (cl "hour") (line.drop 14), some 6⟩) ∧
    (∀ (st : ScanSt) (line : List Char) (f : List Char),
        pyStarts (cl "UTC") (pyStrip (line.take 14)) = false →
        pyEnds (cl "3HRLY") (pyStrip (line.take 14)) = false →
        pyEnds (cl "6HRLY") (pyStrip (line.take 14)) = false →
        alook nwsLabelDict (pyStrip (line.take 14)) = some f →
        st.mode = some 3 →
        scanStep st line =
          .ok ⟨aset st.rows3 f (line.drop 14), st.rows6, some 3⟩) ∧
    (∀ (st : ScanSt) (line : List Char) (f : List Char),
        pyStarts (cl "UTC") (pyStrip (line.take 14)) = false →
        pyEnds (cl "3HRLY") (pyStrip (line.take 14)) = false →
        pyEnds (cl "6HRLY") (pyStrip (line.take 14)) = false →
        alook nwsLabelDict (pyStrip (line.take 14)) = some f →
        st.mode = some 6 →
        scanStep st line =
          .ok ⟨st.rows3, aset st.rows6 f (line.drop 14), some 6⟩) ∧
    (∀ (st : ScanSt) (line : List Char),
        pyStarts (cl "UTC") (pyStrip (line.take 14)) = false →
        pyEnds (cl "3HRLY") (pyStrip (line.take 14)) = false →
        pyEnds (cl "6HRLY") (pyStrip (line.take 14)) = false →
        alook nwsLabelDict (pyStrip (line.take 14)) = none →
        scanStep st line = .ok st) := by
  have hdict : alook nwsLabelDict (cl "HOUR") = some (cl "hour") := rfl
  refine ⟨?_, ?_, ?_, ?_, ?_, ?_⟩
  · intro st line hutc
    simp [scanStep, hutc]
  · intro st line hutc h3
    simp [scanStep, hutc, h3, hdict]
  · intro st line hutc h3 h6
    simp [scanStep, hutc, h3, h6, hdict]
  · intro st line f hutc h3 h6 hf hm
    simp [scanStep, hutc, h3, h6, hf, hm]
  · intro st line f hutc h3 h6 hf hm
    simp [scanStep, hutc, h3, h6, hf, hm]
  · intro st line hutc h3 h6 hf
    simp [scanStep, hutc, h3, h6, hf]

/-- Claim C9, witness: the routing theorem instantiated on concrete rows —
a `UTC 3HRLY` row is skipped, an `EDT 3HRLY` row sets mode 3, an
`EDT 6HRLY` row sets mode 6, a `TEMP` row is routed to `rows3` in mode 3
and to `rows6` in mode 6, and an unrecognized row is a no-op. -/
theorem scan_mode_routing_witness :
    (scanStep ⟨[], [], none⟩ (cl "UTC 3HRLY     05 08") =
      .ok ⟨[], [], none⟩) ∧
    (scanStep ⟨[], [], none⟩ (cl "EDT 3HRLY     05 08") =
      .ok ⟨[(cl "hour", cl "05 08")], [], some 3⟩) ∧
    (scanStep ⟨[], [], some 3⟩ (cl "EDT 6HRLY      05") =
      .ok ⟨[], [(cl "hour", cl " 05")], some 6⟩) ∧
    (scanStep ⟨[], [], some 3⟩ (cl "TEMP          62 60") =
      .ok ⟨[(cl "temp", cl "62 60")], [], some 3⟩) ∧
    (scanStep ⟨[], [], some 6⟩ (cl "TEMP          62 60") =
      .ok ⟨[], [(cl "temp", cl "62 60")], some 6⟩) ∧
    (scanStep ⟨[], [], some 3⟩ (cl "MYSTERY ROW   62 60") =
      .ok ⟨[], [], some 3⟩) :=
  ⟨scan_mode_routing.1 ⟨[], [], none⟩ _ rfl,
   scan_mode_routing.2.1 ⟨[], [], none⟩ _ rfl rfl,
   scan_mode_routing.2.2.1 ⟨[], [], some 3⟩ _ rfl rfl rfl,
   scan_mode_routing.2.2.2.1 ⟨[], [], some 3⟩ _ (cl "temp") rfl rfl rfl rfl
     rfl,
   scan_mode_routing.2.2.2.2.1 ⟨[], [], some 6⟩ _ (cl "temp") rfl rfl rfl
     rfl rfl,
   scan_mode_routing.2.2.2.2.2 ⟨[], [], some 3⟩ _ rfl rfl rfl rfl⟩

/-- Claim C10: a line starting with the identifier seen while a block is
already open restarts the capture at that line (the previously accumulated
lines are discarded), and consequently no line after the first of a
returned block starts with the identifier: the block begins at the last
identifier-prefixed line preceding the terminator. -/
theorem extract_block_restart :
    (∀ (sid line : List Char) (rest : List (List Char))
        (cur : List (List Char)),
        pyStarts sid line = true →
        extractLoop sid (line :: rest) (some cur) =
          extractLoop sid rest (some [line])) ∧
    (∀ (alllines : List (List Char)) (sid : List Char)
        (blk : List (List Char)),
        extractBlock alllines sid = some blk →
        ∀ l ∈ blk.tail, pyStarts sid l = false) := by
  constructor
  · intro sid line rest cur hid
    simp [extractLoop, hid]
  · intro alllines sid blk h l hl
    obtain ⟨pre, rest, h1, ⟨hd, tl, rfl, hid, hno⟩, h3⟩ :=
      extractLoop_none_some sid alllines blk h
    exact (hno l (by simpa using hl)).1

/-- Claim C10, witness: restarting at a repeated identifier line drops the
accumulated lines, and on a concrete bulletin no tail line of the captured
block starts with the identifier. -/
theorem extract_block_restart_witness :
    (extractLoop (cl "AX") [cl "AX 9", cl "x"] (some [cl "old"]) =
      extractLoop (cl "AX") [cl "x"] (some [cl "AX 9"])) ∧
    pyStarts (cl "AX") (cl "data") = false :=
  ⟨extract_block_restart.1 (cl "AX") (cl "AX 9") [cl "x"] [cl "old"] rfl,
   extract_block_restart.2 [cl "AX 1", cl "mid", cl "AX 2", cl "data",
      cl "$$"] (cl "AX") [cl "AX 2", cl "data"] rfl (cl "data")
      (by simp)⟩

/-- Claim C2 (amended): with all mapped slots in bounds, decoding a
labeled data row raises `KeyError` exactly when some token's ending column
position has no entry in the slot-index map — the token's value is NOT
dropped, and the error aborts `filldata` (and hence the whole parse)
rather than letting row decoding continue. -/
theorem fillrow_unmapped_token_aborts :
    (∀ (row : List Char) (pos : Nat) (s : List Char)
        (idc : List (Nat × Nat)) (seq : List PVal),
        (∀ p ix, alook idc p = some ix → ix < seq.length) →
        (fillrowGo row pos s idc seq = .error .keyError ↔
          ∃ tp ∈ tokensWithEnds row pos s, alook idc tp.2 = none)) ∧
    (∀ (d : MatrixData) (nidx : Nat) (label row : List Char)
        (rest : List (List Char × List Char)) (idc : List (Nat × Nat))
        (e : PErr),
        fillrowGo row 0 [] idc
            ((alook d label).getD (List.replicate nidx pnone)) =
          .error e →
        filldata d nidx ((label, row) :: rest) idc = .error e) := by
  refine ⟨fillrowGo_keyError_iff, ?_⟩
  intro d nidx label row rest idc e h
  unfold filldata fillRows
  rw [h]

/-- Claim C2, witness: the amended theorem at the concrete row `7  `
whose token ends at column 0, with slot map `{1: 0}`. -/
theorem fillrow_unmapped_token_aborts_witness :
    fillrowGo (cl "7  ") 0 [] [(1, 0)] [pnone] = .error .keyError ∧
      filldata [] 1 [(cl "temp", cl "7  ")] [(1, 0)] = .error .keyError := by
  have hbound : ∀ p ix, alook [((1 : Nat), (0 : Nat))] p = some ix →
      ix < ([pnone] : List PVal).length := by
    intro p ix h
    simp only [alook] at h
    split at h
    · cases h; decide
    · exact Option.noConfusion h
  have h1 : fillrowGo (cl "7  ") 0 [] [(1, 0)] [pnone] =
      .error .keyError :=
    (fillrow_unmapped_token_aborts.1 (cl "7  ") 0 [] [(1, 0)] [pnone]
        hbound).mpr ⟨(cl "7", 0), by decide, rfl⟩
  exact ⟨h1, fillrow_unmapped_token_aborts.2 [] 1 (cl "temp") (cl "7  ") []
    [(1, 0)] .keyError h1⟩

/-- Claim C8 (amended): the extractor returns `None` exactly when no line
of the bulletin starts with the identifier; when it returns a block, the
block is a contiguous line range of the bulletin that begins at an
identifier-prefixed line, contains no further identifier or terminator
line (so it begins at the last identifier line preceding the cut), and is
followed either by nothing or by the `$$` terminator line that ended it. -/
theorem extract_block_characterization :
    ∀ (alllines : List (List Char)) (sid : List Char),
      (extractBlock alllines sid = none ↔
        ∀ l ∈ alllines, pyStarts sid l = false) ∧
      (∀ blk, extractBlock alllines sid = some blk →
        ∃ pre rest, alllines = pre ++ blk ++ rest ∧ blockShape sid blk ∧
          cutOK sid rest) := by
  intro alllines sid
  exact ⟨extractLoop_none_iff sid alllines,
    fun blk h => extractLoop_none_some sid alllines blk h⟩

/-- Claim C8, witness: the characterization applied to a concrete bulletin
that does contain the identifier, so the extractor cannot return `None`. -/
theorem extract_block_characterization_witness :
    extractBlock [cl "AX 1", cl "mid", cl "AX 2", cl "data", cl "$$"]
      (cl "AX") ≠ none := by
  intro h
  have hall :=
    ((extract_block_characterization
        [cl "AX 1", cl "mid", cl "AX 2", cl "data", cl "$$"]
        (cl "AX")).1).mp h
  have := hall (cl "AX 1") (List.mem_cons_self _ _)
  exact absurd this (by decide)

/-- Claim C3 (amended): whenever the fourth line of the extracted block
fails to parse (out-of-range part access or `strptime` mismatch),
`ParseNWSForecast` propagates that exact error to the caller instead of
returning `None`; no partial matrix is ever returned on this path. -/
theorem parse_propagates_header_error :
    ∀ (alllines : List (List Char)) (sid : List Char)
      (blk : List (List Char)) (e : PErr),
      extractBlock alllines sid = some blk →
      Except.bind (pyIdx blk 3) date2ts = .error e →
      parseNWSForecast alllines sid = .error e := by
  intro alllines sid blk e hext hhdr
  unfold parseNWSForecast
  rw [hext]
  cases h3 : pyIdx blk 3 with
  | error e' =>
      rw [h3] at hhdr
      simp only [Except.bind] at hhdr
      cases hhdr
      simp [h3]
  | ok l3 =>
      rw [h3] at hhdr
      simp only [Except.bind] at hhdr
      simp [h3, hhdr]

/-- Claim C3, witness: the propagation theorem at a concrete bulletin with
a malformed fourth line. -/
theorem parse_propagates_header_error_witness :
    parseNWSForecast [cl "KDEF Y", cl "D", cl "L", cl "NOT A DATE LINE"]
      (cl "KDEF") = .error .indexError :=
  parse_propagates_header_error
    [cl "KDEF Y", cl "D", cl "L", cl "NOT A DATE LINE"] (cl "KDEF")
    [cl "KDEF Y", cl "D", cl "L", cl "NOT A DATE LINE"] .indexError rfl rfl

/-- Claim C4 (amended): when the extracted block contains no row whose
label ends with `3HRLY` or `6HRLY`, `ParseNWSForecast` raises an error
(`KeyError` at `rows3['hour']`, or `UnboundLocalError` if a recognized
label appears, or an earlier header error) — it never returns a "no
forecast" result for such a block. -/
theorem parse_no_hour_rows_errors :
    ∀ (alllines : List (List Char)) (sid : List Char)
      (blk : List (List Char)),
      extractBlock alllines sid = some blk →
      (∀ l ∈ blk, pyEnds (cl "3HRLY") (pyStrip (l.take 14)) = false ∧
        pyEnds (cl "6HRLY") (pyStrip (l.take 14)) = false) →
      raisesError (parseNWSForecast alllines sid) = true := by
  intro alllines sid blk hext hall
  unfold parseNWSForecast
  rw [hext]
  cases h3 : pyIdx blk 3 with
  | error e => simp [raisesError, h3]
  | ok l3 =>
      cases hdt : date2ts l3 with
      | error e => simp [raisesError, h3, hdt]
      | ok ts =>
          rcases scanGo_no_hour blk ⟨[], [], none⟩ rfl hall with he | hok
          · simp [raisesError, h3, hdt, he]
          · simp only [h3, hdt, hok]
            unfold parseTail
            cases h1 : pyIdx blk 1 with
            | error e => simp [raisesError, h1]
            | ok desc =>
                cases h2 : pyIdx blk 2 with
                | error e => simp [raisesError, h1, h2]
                | ok loc =>
                    simp [raisesError, h1, h2, aget, alook]

/-- Claim C4, witness: the amended theorem at a concrete block with a
valid header and no hour rows; the parse indeed raises. -/
theorem parse_no_hour_rows_errors_witness :
    raisesError (parseNWSForecast
      [cl "KGHI Z", cl "DESC", cl "LOC", cl "418 PM EDT SAT MAY 11 2013"]
      (cl "KGHI")) = true :=
  parse_no_hour_rows_errors
    [cl "KGHI Z", cl "DESC", cl "LOC", cl "418 PM EDT SAT MAY 11 2013"]
    (cl "KGHI")
    [cl "KGHI Z", cl "DESC", cl "LOC", cl "418 PM EDT SAT MAY 11 2013"]
    rfl (by decide)

/-- Claim C6: in every matrix `ParseNWSForecast` produces, every per-field
value list in the matrix dictionary (including `hour` and the resolved
`tempMin`/`tempMax`) has length exactly equal to the TimeAxis length
`matrix['ts'].length`; absent values are nulls inside lists of full
length, never shorter lists. -/
theorem fieldsequence_length_eq_timeaxis_length :
    ∀ (alllines : List (List Char)) (sid : List Char) (m : NWSMatrix),
      parseNWSForecast alllines sid = .ok (some m) →
      ∀ k v, alook m.data k = some v → v.length = m.ts.length := by
  intro alllines sid m hp
  unfold parseNWSForecast at hp
  split at hp
  · simp at hp
  · next lines =>
      split at hp
      · exact Except.noConfusion hp
      · next l3 h3 =>
          split at hp
          · exact Except.noConfusion hp
          · next ts hts =>
              split at hp
              · exact Except.noConfusion hp
              · next st hst =>
                  unfold parseTail at hp
                  split at hp
                  · next desc loc h1 h2 =>
                      split at hp
                      · exact Except.noConfusion hp
                      · next hrow3 hh3 =>
                          split at hp
                          · exact Except.noConfusion hp
                          · next a3 ha3 =>
                              split at hp
                              · exact Except.noConfusion hp
                              · next hrow6 hh6 =>
                                  split at hp
                                  · exact Except.noConfusion hp
                                  · next a6 ha6 =>
                                      split at hp
                                      · exact Except.noConfusion hp
                                      · next d1 hf1 =>
                                          split at hp
                                          · exact Except.noConfusion hp
                                          · next d2 hf2 =>
                                              cases hp
                                              intro k v hk
                                              obtain ⟨_, hl3, hi3, _⟩ :=
                                                axis3go_spec _ _ _ _ _ _ ha3
                                              obtain ⟨hl6, hi6⟩ :=
                                                axis6go_len _ _ _ _ _ _ _ ha6
                                              have hn : a6.idx =
                                                  (a3.ts ++ a6.ts).length := by
                                                simp [hi6, hi3]
                                              have hd0 : DInv
                                                  [(cl "hour",
                                                    a3.hour ++ a6.hour)]
                                                  a6.idx := by
                                                intro k0 v0 h0
                                                unfold alook at h0
                                                split at h0
                                                · cases h0
                                                  simp [hl3, hl6, hi6, hi3]
                                                · exact Option.noConfusion h0
                                              have hd2 : DInv d2 a6.idx :=
                                                filldata_DInv _ _ _ _ _
                                                  (filldata_DInv _ _ _ _ _
                                                    hd0 hf1) hf2
                                              rw [show ((⟨sid, desc, loc, ts,
                                                a3.ts ++ a6.ts, d2⟩ :
                                                NWSMatrix)).ts.length =
                                                  a6.idx from hn.symm]
                                              exact hd2 k v hk
                  · exact Except.noConfusion hp
                  · exact Except.noConfusion hp

/-- Claim C6, witness: the length theorem applied to the concrete
`sampleBulletin` matrix at the field `tempMin`. -/
theorem fieldsequence_length_eq_timeaxis_length_witness :
    ([pnone, pnone] : List PVal).length = sampleMatrix.ts.length :=
  fieldsequence_length_eq_timeaxis_length sampleBulletin (cl "KABC")
    sampleMatrix rfl (cl "tempMin") [pnone, pnone] rfl

/-- Claim C7 (amended): when building the time axis from the 3-hour hour
row, exactly one TimeAxis entry is emitted per fixed 3-character cell in
row order (the cell starting at data-region column `3k` yields slot
`idx+k`), and the 3-hour SlotIndexMap records each slot index keyed by the
cell's starting column position PLUS ONE — the ending column of the
2-digit hour token (`indices3[i+1] = idx` at line 694) — not by the
starting position itself. -/
theorem axis3_one_entry_per_cell_keys_plus_one :
    ∀ (data : List Char) (pos : Nat) (day : Int) (lasth : Option Int)
      (idx : Nat) (r : AxisOut),
      axis3go data pos day lasth idx = .ok r →
      r.ts.length = (data.length + 2) / 3 ∧
      r.hour.length = r.ts.length ∧
      r.idx = idx + r.ts.length ∧
      r.idc = (List.range r.ts.length).map
        (fun k => (pos + 3 * k + 1, idx + k)) := axis3go_spec

/-- Claim C7, witness: the cell/key characterization applied to the
concrete 3-hour data region `20 23 `. -/
theorem axis3_one_entry_per_cell_keys_plus_one_witness :
    ([((1 : Nat), (0 : Nat)), (4, 1)] : List (Nat × Nat)) =
      (List.range 2).map (fun k => (0 + 3 * k + 1, 0 + k)) :=
  (axis3_one_entry_per_cell_keys_plus_one (cl "20 23 ") 0 0 none 0
    ⟨[72000, 82800], [pint 20, pint 23], [(1, 0), (4, 1)], 2, 0, some 23⟩
    rfl).2.2.2

/-- Claim C8, counterexample: when a second line starting with the
identifier appears before the terminator, the captured block does NOT run
from the (first) identifier line to the terminator — the extractor restarts
at the later identifier line and discards the earlier lines. -/
theorem extract_block_not_from_first_id_line :
    extractBlock [cl "AX 1", cl "mid", cl "AX 2", cl "data", cl "$$"]
        (cl "AX") = some [cl "AX 2", cl "data"] ∧
      pyStarts (cl "AX") (cl "AX 1") = true ∧
      [cl "AX 2", cl "data"] ≠ [cl "AX 1", cl "mid", cl "AX 2", cl "data"] :=
  ⟨rfl, rfl, by decide⟩
